import Mathlib

/-!
Shallow embedding of the `trigger_detection` repository's analysis-and-scoring
pipeline, together with proofs of the specification claims.

Conventions of the embedding:
* Python floats are modelled by `ℚ`; `round(x, n)` is modelled by
  round-half-to-even on `x * 10^n` (Python 3 banker's rounding).
* Python strings are modelled by `List Char`; the Unicode classes `\w` and
  `\s` are modelled by their ASCII behaviour.
* SQLite tables are modelled by lists of rows; `ORDER BY` is modelled by an
  insertion sort on the corresponding key.
-/

namespace TriggerDetection

/-! ### Python-style rounding (`round(x, ndigits)`) -/

/-- Python 3 `round` to an integer: round half to even. -/
def pyRoundInt (q : ℚ) : ℤ :=
  let f : ℤ := ⌊q⌋
  let frac : ℚ := q - f
  if frac < 1/2 then f
  else if 1/2 < frac then f + 1
  else if f % 2 = 0 then f else f + 1

/-- Python `round(q, 1)`. -/
def round1 (q : ℚ) : ℚ := (pyRoundInt (q * 10) : ℚ) / 10

/-- Python `round(q, 3)`. -/
def round3 (q : ℚ) : ℚ := (pyRoundInt (q * 1000) : ℚ) / 1000

theorem pyRoundInt_nonneg {q : ℚ} (hq : 0 ≤ q) : 0 ≤ pyRoundInt q := by
  have hf : (0:ℤ) ≤ ⌊q⌋ := Int.floor_nonneg.mpr hq
  unfold pyRoundInt
  dsimp only
  split_ifs <;> omega

theorem round1_nonneg {q : ℚ} (hq : 0 ≤ q) : 0 ≤ round1 q := by
  have h : (0:ℤ) ≤ pyRoundInt (q * 10) := pyRoundInt_nonneg (by positivity)
  unfold round1
  positivity

/-! ### `calculate_trigger_score` (src/utils/helpers.py) -/

/-- The recency component of the trigger score (0.5–2 points). -/
def recency_score (recency_days : ℕ) : ℚ :=
  if recency_days ≤ 1 then 2
  else if recency_days ≤ 7 then 3/2
  else if recency_days ≤ 30 then 1
  else 1/2

/-- `calculate_trigger_score` from `src/utils/helpers.py`: fuses keyword count,
sentiment, recency and source reliability into one score, rounded to one
decimal and capped at 10. -/
def calculate_trigger_score (keyword_matches : ℕ) (sentiment_score : ℚ)
    (recency_days : ℕ) (source_reliability : ℚ) : ℚ :=
  let keyword_score := min ((keyword_matches : ℚ) * 1) 4
  let sentiment_contribution := 1 + sentiment_score
  let reliability_score := source_reliability * 2
  let total := keyword_score + sentiment_contribution + recency_score recency_days +
    reliability_score
  min (round1 total) 10

theorem recency_score_ge (recency_days : ℕ) : 1/2 ≤ recency_score recency_days := by
  unfold recency_score
  split_ifs <;> norm_num

/-- C1: under the stated preconditions the score equals the claimed closed
formula, and lies in `[0, 10]`. -/
theorem calculate_trigger_score_spec (keyword_matches : ℕ) (sentiment_score : ℚ)
    (recency_days : ℕ) (source_reliability : ℚ)
    (hs₁ : -1 ≤ sentiment_score) (hs₂ : sentiment_score ≤ 1)
    (hr₁ : 0 ≤ source_reliability) (hr₂ : source_reliability ≤ 1) :
    calculate_trigger_score keyword_matches sentiment_score recency_days source_reliability =
      min (round1 (min ((keyword_matches : ℚ) * 1) 4 + (1 + sentiment_score) +
        (if recency_days ≤ 1 then 2 else if recency_days ≤ 7 then 3/2
          else if recency_days ≤ 30 then 1 else 1/2) + source_reliability * 2)) 10 ∧
    0 ≤ calculate_trigger_score keyword_matches sentiment_score recency_days
      source_reliability ∧
    calculate_trigger_score keyword_matches sentiment_score recency_days
      source_reliability ≤ 10 := by
  have hkw : (0:ℚ) ≤ min ((keyword_matches : ℚ) * 1) 4 := by
    have : (0:ℚ) ≤ (keyword_matches : ℚ) := Nat.cast_nonneg _
    simp only [le_min_iff]
    constructor <;> nlinarith
  have htotal : 0 ≤ min ((keyword_matches : ℚ) * 1) 4 + (1 + sentiment_score) +
      recency_score recency_days + source_reliability * 2 := by
    have h1 : (0:ℚ) ≤ 1 + sentiment_score := by linarith
    have h2 := recency_score_ge recency_days
    nlinarith
  refine ⟨rfl, ?_, ?_⟩
  · unfold calculate_trigger_score
    simp only [le_min_iff]
    exact ⟨round1_nonneg htotal, by norm_num⟩
  · unfold calculate_trigger_score
    exact min_le_right _ _

theorem calculate_trigger_score_spec_witness :
    (-1 : ℚ) ≤ 1/2 ∧ (1/2 : ℚ) ≤ 1 ∧ (0:ℚ) ≤ 7/10 ∧ (7/10 : ℚ) ≤ 1 ∧
    (0 ≤ calculate_trigger_score 2 (1/2) 3 (7/10) ∧
      calculate_trigger_score 2 (1/2) 3 (7/10) ≤ 10) :=
  ⟨by norm_num, by norm_num, by norm_num, by norm_num,
    ((calculate_trigger_score_spec 2 (1/2) 3 (7/10) (by norm_num) (by norm_num)
      (by norm_num) (by norm_num)).2)⟩

/-! ### `QuantityAnalyzer` scale classification (src/analyzers/quantity_analyzer.py) -/

/-- `QuantityAnalyzer.SCALE_THRESHOLDS`, in dict insertion order; `none` models
`float('inf')` as the upper bound of the `enterprise` band. -/
def SCALE_THRESHOLDS : List (String × ℚ × Option ℚ) :=
  [("small", 0, some 10000),
   ("medium", 10000, some 100000),
   ("large", 100000, some 1000000),
   ("enterprise", 1000000, none)]

/-- `q` is strictly below an upper bound, where `none` models `float('inf')`. -/
def belowHigh (q : ℚ) : Option ℚ → Bool
  | some h => decide (q < h)
  | none => true

/-- The loop body of `_get_scale`: scan the threshold bands in order and return
the first band containing the quantity; fall through to `'enterprise'`. -/
def scaleLookup (q : ℚ) : List (String × ℚ × Option ℚ) → String
  | [] => "enterprise"
  | (scale, low, high) :: rest =>
    if low ≤ q ∧ belowHigh q high = true then scale
    else scaleLookup q rest

/-- `QuantityAnalyzer._get_scale`. -/
def _get_scale (normalized_quantity : ℚ) : String :=
  scaleLookup normalized_quantity SCALE_THRESHOLDS

theorem get_scale_eq (q : ℚ) (hq : 0 ≤ q) :
    _get_scale q = if q < 10000 then "small" else if q < 100000 then "medium"
      else if q < 1000000 then "large" else "enterprise" := by
  simp only [_get_scale, SCALE_THRESHOLDS, scaleLookup, belowHigh, decide_eq_true_eq]
  rcases lt_or_le q 10000 with h1 | h1
  · rw [if_pos ⟨hq, h1⟩, if_pos h1]
  · rw [if_neg (by rintro ⟨-, h⟩; linarith), if_neg (not_lt.mpr h1)]
    rcases lt_or_le q 100000 with h2 | h2
    · rw [if_pos ⟨h1, h2⟩, if_pos h2]
    · rw [if_neg (by rintro ⟨-, h⟩; linarith), if_neg (not_lt.mpr h2)]
      rcases lt_or_le q 1000000 with h3 | h3
      · rw [if_pos ⟨h2, h3⟩, if_pos h3]
      · rw [if_neg (by rintro ⟨-, h⟩; linarith), if_neg (not_lt.mpr h3),
          if_pos (by exact ⟨h3, trivial⟩)]

/-- C4: for nonnegative quantities the scale classification is the low-inclusive
half-open partition small `[0,10000)`, medium `[10000,100000)`,
large `[100000,1000000)`, enterprise `[1000000,∞)`; the boundary values 10000
and 1000000 classify as `medium` and `enterprise` respectively. -/
theorem get_scale_partition :
    (∀ q : ℚ, 0 ≤ q →
      ((_get_scale q = "small" ↔ 0 ≤ q ∧ q < 10000) ∧
       (_get_scale q = "medium" ↔ 10000 ≤ q ∧ q < 100000) ∧
       (_get_scale q = "large" ↔ 100000 ≤ q ∧ q < 1000000) ∧
       (_get_scale q = "enterprise" ↔ 1000000 ≤ q))) ∧
    _get_scale 10000 = "medium" ∧ _get_scale 1000000 = "enterprise" := by
  have hm : _get_scale (10000 : ℚ) = "medium" := by
    rw [get_scale_eq 10000 (by norm_num)]; norm_num
  have he : _get_scale (1000000 : ℚ) = "enterprise" := by
    rw [get_scale_eq 1000000 (by norm_num)]; norm_num
  refine ⟨?_, hm, he⟩
  intro q hq
  rw [get_scale_eq q hq]
  split_ifs with h1 h2 h3 <;>
    simp only [not_lt] at * <;>
    refine ⟨?_, ?_, ?_, ?_⟩ <;>
    constructor <;>
    intro h <;>
    first
      | rfl
      | trivial
      | exact h.elim
      | exact absurd h (by decide)
      | exact ⟨by linarith, by linarith⟩
      | linarith
      | (exfalso; obtain ⟨ha, hb⟩ := h; linarith)
      | (exfalso; linarith)

theorem get_scale_partition_witness :
    (0:ℚ) ≤ 5 ∧ (_get_scale (5:ℚ) = "small" ↔ (0:ℚ) ≤ 5 ∧ (5:ℚ) < 10000) :=
  ⟨by norm_num, ((get_scale_partition.1 5 (by norm_num)).1)⟩

/-! ### Character classes (ASCII model of the regex classes `\d`, `\s`, `\w`, `[a-zA-Z]`) -/

/-- `\s` (ASCII): space, tab, newline, carriage return, vertical tab, form feed. -/
def isWsChar (c : Char) : Bool :=
  c = ' ' || c = '\t' || c = '\n' || c = '\r' || c = '\x0b' || c = '\x0c'

/-- `\w` (ASCII): letters, digits and underscore. -/
def isWordChar (c : Char) : Bool := c.isAlphanum || c = '_'

/-- Python `str.strip()` on a character list. -/
def stripList (cs : List Char) : List Char :=
  ((cs.dropWhile isWsChar).reverse.dropWhile isWsChar).reverse

/-- Lowercase every character (the effect of `re.IGNORECASE` / `str.lower()`). -/
def lowerList (cs : List Char) : List Char := cs.map Char.toLower

/-! ### `QuantityAnalyzer.extract_quantities` (src/analyzers/quantity_analyzer.py)

The compiled pattern is
`(\d+(?:,\d{3})*(?:\.\d+)?)\s*(lakh|lac|lakhs|lacs|crore|crores|cr|million|mil|k|thousand)?\s*([a-zA-Z]+)?`
with `re.IGNORECASE`.  Every sub-pattern after the number group is optional,
so the regex engine never backtracks on this pattern; the functions below are
the resulting deterministic matcher. -/

/-- Greedy `(?:,\d{3})*`: consume repetitions of a comma followed by exactly
three digits; returns (consumed, rest). -/
def matchCommaGroups : List Char → List Char × List Char
  | ',' :: a :: b :: c :: rest =>
    if a.isDigit && b.isDigit && c.isDigit then
      let (g, r) := matchCommaGroups rest
      (',' :: a :: b :: c :: g, r)
    else ([], ',' :: a :: b :: c :: rest)
  | cs => ([], cs)

/-- Greedy `(?:\.\d+)?`: a dot followed by at least one digit, or nothing. -/
def matchFrac : List Char → List Char × List Char
  | '.' :: rest =>
    if (rest.takeWhile Char.isDigit).isEmpty then ([], '.' :: rest)
    else ('.' :: rest.takeWhile Char.isDigit, rest.dropWhile Char.isDigit)
  | cs => ([], cs)

/-- Group 1, `\d+(?:,\d{3})*(?:\.\d+)?`: `none` when no digit starts here. -/
def matchNumber (cs : List Char) : Option (List Char × List Char) :=
  if (cs.takeWhile Char.isDigit).isEmpty then none
  else
    let ds := cs.takeWhile Char.isDigit
    let (g, r2) := matchCommaGroups (cs.dropWhile Char.isDigit)
    let (f, r3) := matchFrac r2
    some (ds ++ g ++ f, r3)

/-- The magnitude alternation of group 2, in the pattern's order. -/
def MAG_ALTS : List String :=
  ["lakh", "lac", "lakhs", "lacs", "crore", "crores", "cr", "million", "mil", "k",
   "thousand"]

/-- Group 2: first alternative that matches case-insensitively at this
position; returns (alternative, matched text, rest). -/
def matchMagGo (cs : List Char) : List String → Option (String × List Char × List Char)
  | [] => none
  | alt :: alts =>
    let n := alt.length
    if n ≤ cs.length ∧ lowerList (cs.take n) = lowerList alt.data then
      some (alt, cs.take n, cs.drop n)
    else matchMagGo cs alts

def matchMag (cs : List Char) : Option (String × List Char × List Char) :=
  matchMagGo cs MAG_ALTS

/-- One attempted match of the full quantity pattern at the head of `cs`:
the groups `(number, magnitude, unit)` together with `group(0)` and the rest
of the text. -/
structure QuantityMatch where
  raw : List Char
  numStr : List Char
  magStr : Option String
  unitStr : Option (List Char)
  deriving DecidableEq

def matchQuantityAt (cs : List Char) : Option (QuantityMatch × List Char) :=
  match matchNumber cs with
  | none => none
  | some (num, r1) =>
    let ws1 := r1.takeWhile isWsChar
    let r2 := r1.dropWhile isWsChar
    match matchMag r2 with
    | some (alt, magChars, r3) =>
      let ws2 := r3.takeWhile isWsChar
      let r4 := r3.dropWhile isWsChar
      let al := r4.takeWhile Char.isAlpha
      let rest := r4.dropWhile Char.isAlpha
      some (⟨num ++ ws1 ++ magChars ++ ws2 ++ al, num, some alt,
        if al.isEmpty then none else some al⟩, rest)
    | none =>
      let al := r2.takeWhile Char.isAlpha
      let rest := r2.dropWhile Char.isAlpha
      some (⟨num ++ ws1 ++ al, num, none, if al.isEmpty then none else some al⟩, rest)

/-- `finditer` over the text: scan left to right, collecting non-overlapping
matches (every match is nonempty since group 1 requires a digit). -/
def scanQuantities : ℕ → List Char → List QuantityMatch
  | 0, _ => []
  | _ + 1, [] => []
  | fuel + 1, c :: rest =>
    match matchQuantityAt (c :: rest) with
    | some (m, r) => m :: scanQuantities fuel r
    | none => scanQuantities fuel rest

/-- Value of a digit character. -/
def digitVal (c : Char) : ℕ := c.toNat - 48

def digitsToNat (cs : List Char) : ℕ := cs.foldl (fun n c => 10 * n + digitVal c) 0

/-- Python `float(number_str)` after `.replace(',', '')`, on the digit/comma/dot
strings produced by group 1. -/
def parseNumber (cs : List Char) : ℚ :=
  let cs := cs.filter (fun c => c ≠ ',')
  let intPart := cs.takeWhile Char.isDigit
  match cs.dropWhile Char.isDigit with
  | '.' :: frac => (digitsToNat intPart : ℚ) + (digitsToNat frac : ℚ) / (10 ^ frac.length)
  | _ => (digitsToNat intPart : ℚ)

/-- `QuantityAnalyzer._get_multiplier`'s dict (Indian-numbering magnitudes). -/
def MULTIPLIERS : List (String × ℚ) :=
  [("lakh", 100000), ("lac", 100000), ("lakhs", 100000), ("lacs", 100000),
   ("crore", 10000000), ("crores", 10000000), ("cr", 10000000),
   ("million", 1000000), ("mil", 1000000), ("k", 1000), ("thousand", 1000)]

/-- `QuantityAnalyzer._get_multiplier`: `multipliers.get(s, 1)`. -/
def _get_multiplier (s : String) : ℚ := (MULTIPLIERS.lookup s).getD 1

/-- `QuantityAnalyzer.UNIT_CONVERSIONS`. -/
def UNIT_CONVERSIONS : List (String × ℚ) :=
  [("tablet", 1), ("tablets", 1), ("tab", 1), ("tabs", 1),
   ("capsule", 1), ("capsules", 1), ("cap", 1), ("caps", 1),
   ("strip", 10), ("strips", 10), ("pack", 10), ("packs", 10),
   ("blister", 10), ("blisters", 10),
   ("box", 100), ("boxes", 100), ("carton", 100), ("cartons", 100),
   ("bottle", 100), ("bottles", 100),
   ("vial", 1), ("vials", 1), ("ampoule", 1), ("ampoules", 1),
   ("amp", 1), ("amps", 1),
   ("ml", 1), ("liter", 1000), ("liters", 1000), ("litre", 1000),
   ("litres", 1000), ("l", 1000),
   ("mg", 1/1000), ("gram", 1), ("grams", 1), ("gm", 1), ("g", 1),
   ("kg", 1000), ("kilogram", 1000), ("kilograms", 1000)]

/-- `UNIT_CONVERSIONS.get(unit, 1)`. -/
def unitConversion (unit : String) : ℚ := (UNIT_CONVERSIONS.lookup unit).getD 1

/-- `QuantityAnalyzer._get_unit_type`. -/
def _get_unit_type (unit : String) : String :=
  if unit ∈ ["tablet", "tablets", "tab", "tabs"] then "tablet"
  else if unit ∈ ["capsule", "capsules", "cap", "caps"] then "capsule"
  else if unit ∈ ["vial", "vials", "ampoule", "ampoules", "amp", "amps"] then "vial"
  else if unit ∈ ["ml", "liter", "liters", "litre", "litres", "l"] then "ml"
  else if unit ∈ ["mg", "gram", "grams", "gm", "g", "kg", "kilogram", "kilograms"]
    then "gram"
  else "default"

/-- `QuantityAnalyzer.AVG_PRICES`. -/
def AVG_PRICES : List (String × ℚ) :=
  [("tablet", 2), ("capsule", 3), ("vial", 50), ("ml", 1/2), ("gram", 5),
   ("default", 2)]

/-- The `QuantityEstimate` dataclass. -/
structure QuantityEstimate where
  raw_text : String
  quantity : ℚ
  unit : String
  normalized_quantity : ℚ
  estimated_value_inr : ℚ
  scale : String
  deriving DecidableEq

/-- The body of the `extract_quantities` loop for one regex match. -/
def mkEstimate (m : QuantityMatch) : QuantityEstimate :=
  let base_quantity := parseNumber m.numStr
  let multiplier := _get_multiplier (m.magStr.getD "")
  let quantity := base_quantity * multiplier
  let unit := match m.unitStr with
    | some u => String.mk (lowerList u)
    | none => "unit"
  let normalized_quantity := quantity * unitConversion unit
  let price := (AVG_PRICES.lookup (_get_unit_type unit)).getD 2
  { raw_text := String.mk (stripList m.raw)
    quantity := quantity
    unit := unit
    normalized_quantity := normalized_quantity
    estimated_value_inr := quantity * price
    scale := _get_scale normalized_quantity }

/-- `QuantityAnalyzer.extract_quantities`. -/
def extract_quantities (text : String) : List QuantityEstimate :=
  if text.data.isEmpty then []
  else (scanQuantities text.data.length text.data).map mkEstimate

/-- The `unit` field computed by the extraction loop: the lowercased unit word,
or `'unit'` when group 3 is absent. -/
def unitOf (m : QuantityMatch) : String :=
  match m.unitStr with
  | some u => String.mk (lowerList u)
  | none => "unit"

section KernelEval

attribute [local semireducible] Rat.mul Rat.add Rat.sub Rat.inv

/-- C5: every estimate is built as `quantity = parsed number × magnitude
multiplier` and `normalized_quantity = quantity × unit conversion factor`,
with the multiplier table lakh/lac = 100000, crore/cr = 10000000,
million/mil = 1000000, k/thousand = 1000, absent = 1 and conversion factor 1
for an absent or unrecognized unit; `5 lakh tablets` in the spec's example
sentence yields quantity 500000, normalized 500000, scale `large`. -/
theorem extract_quantities_spec :
    (∀ s : String, ∀ e ∈ extract_quantities s,
      ∃ (base : ℚ) (mag unit : String),
        e.quantity = base * _get_multiplier mag ∧
        e.normalized_quantity = e.quantity * unitConversion unit) ∧
    _get_multiplier "lakh" = 100000 ∧ _get_multiplier "lac" = 100000 ∧
    _get_multiplier "crore" = 10000000 ∧ _get_multiplier "cr" = 10000000 ∧
    _get_multiplier "million" = 1000000 ∧ _get_multiplier "mil" = 1000000 ∧
    _get_multiplier "k" = 1000 ∧ _get_multiplier "thousand" = 1000 ∧
    _get_multiplier "" = 1 ∧ unitConversion "unit" = 1 ∧
    extract_quantities "XYZ Pharma seeks manufacturing partner for 5 lakh tablets" =
      [⟨"5 lakh tablets", 500000, "tablets", 500000, 1000000, "large"⟩] := by
  refine ⟨?_, by decide, by decide, by decide, by decide, by decide, by decide,
    by decide, by decide, by decide, by decide, by decide⟩
  intro s e he
  unfold extract_quantities at he
  split at he
  · exact absurd he (List.not_mem_nil e)
  · rcases List.mem_map.mp he with ⟨m, _, rfl⟩
    exact ⟨parseNumber m.numStr, m.magStr.getD "", unitOf m, rfl, rfl⟩

theorem extract_quantities_spec_witness :
    (mkEstimate ⟨"5 lakh tablets".data, ['5'], some "lakh", some "tablets".data⟩ ∈
      extract_quantities "XYZ Pharma seeks manufacturing partner for 5 lakh tablets") ∧
    ∃ (base : ℚ) (mag unit : String),
      (mkEstimate ⟨"5 lakh tablets".data, ['5'], some "lakh",
        some "tablets".data⟩).quantity = base * _get_multiplier mag ∧
      (mkEstimate ⟨"5 lakh tablets".data, ['5'], some "lakh",
        some "tablets".data⟩).normalized_quantity =
        (mkEstimate ⟨"5 lakh tablets".data, ['5'], some "lakh",
          some "tablets".data⟩).quantity * unitConversion unit :=
  ⟨by decide,
    extract_quantities_spec.1 "XYZ Pharma seeks manufacturing partner for 5 lakh tablets"
      _ (by decide)⟩

end KernelEval

/-! ### `SentimentAnalyzer` keyword fallback (src/analyzers/sentiment_analyzer.py) -/

/-- Split into the maximal runs of word characters: the effect of
`re.findall(r'\b\w+\b', text)`.  Fuel-based recursion (any fuel at least the
length of the list gives the untruncated result). -/
def splitWordsGo : ℕ → List Char → List (List Char)
  | 0, _ => []
  | _ + 1, [] => []
  | fuel + 1, c :: rest =>
    if isWordChar c then
      (c :: rest.takeWhile isWordChar) :: splitWordsGo fuel (rest.dropWhile isWordChar)
    else splitWordsGo fuel rest

def splitWords (cs : List Char) : List (List Char) := splitWordsGo cs.length cs

def POSITIVE_WORDS : List String :=
  ["growth", "expansion", "approval", "success", "partnership",
   "launch", "profit", "milestone", "achievement", "breakthrough",
   "innovation", "leading", "strong", "positive", "increase",
   "revenue", "opportunity", "winning", "awarded", "excellent"]

def NEGATIVE_WORDS : List String :=
  ["recall", "warning", "failure", "decline", "loss", "issue",
   "problem", "shutdown", "closure", "lawsuit", "penalty",
   "violation", "deficiency", "concern", "risk", "drop",
   "shortage", "delay", "rejected", "suspended"]

/-- `words = re.findall(r'\b\w+\b', text.lower())`. -/
def sentWords (text : String) : List (List Char) := splitWords (lowerList text.data)

/-- `sum(1 for word in words if word in self.POSITIVE_WORDS)`. -/
def positiveCount (text : String) : ℕ :=
  ((sentWords text).filter (fun w => POSITIVE_WORDS.contains (String.mk w))).length

/-- `sum(1 for word in words if word in self.NEGATIVE_WORDS)`. -/
def negativeCount (text : String) : ℕ :=
  ((sentWords text).filter (fun w => NEGATIVE_WORDS.contains (String.mk w))).length

/-- The unrounded polarity of the keyword fallback. -/
def rawPolarity (text : String) : ℚ :=
  let total := positiveCount text + negativeCount text
  if total = 0 then 0
  else ((positiveCount text : ℚ) - (negativeCount text : ℚ)) / (total : ℚ)

/-- The unrounded subjectivity of the keyword fallback. -/
def rawSubjectivity (text : String) : ℚ :=
  let total := positiveCount text + negativeCount text
  let word_count := (sentWords text).length
  if word_count = 0 then 0
  else min ((total : ℚ) / (word_count : ℚ) * 5) 1

/-- The label thresholds shared by both sentiment paths. -/
def sentimentLabel (polarity : ℚ) : String :=
  if polarity > 1/10 then "positive"
  else if polarity < -(1/10) then "negative"
  else "neutral"

structure SentimentResult where
  polarity : ℚ
  subjectivity : ℚ
  label : String
  deriving DecidableEq

/-- `SentimentAnalyzer._analyze_with_keywords`. -/
def _analyze_with_keywords (text : String) : SentimentResult :=
  ⟨round3 (rawPolarity text), round3 (rawSubjectivity text),
    sentimentLabel (rawPolarity text)⟩

/-- `SentimentAnalyzer.analyze` when TextBlob is unavailable (the
always-available deterministic path): empty text short-circuits to a neutral
result, otherwise the keyword fallback runs. -/
def analyze (text : String) : SentimentResult :=
  if text.data.isEmpty then ⟨0, 0, "neutral"⟩
  else _analyze_with_keywords text

theorem round3_zero : round3 0 = 0 := by
  norm_num [round3, pyRoundInt]

theorem round3_third : round3 (1/3) = 333/1000 := by
  norm_num [round3, pyRoundInt]

theorem positiveCount_empty {text : String} (h : text.data.isEmpty = true) :
    positiveCount text = 0 := by
  rcases text with ⟨cs⟩
  cases cs with
  | nil => rfl
  | cons c rest => simp at h

theorem negativeCount_empty {text : String} (h : text.data.isEmpty = true) :
    negativeCount text = 0 := by
  rcases text with ⟨cs⟩
  cases cs with
  | nil => rfl
  | cons c rest => simp at h

theorem rawPolarity_empty {text : String} (h : text.data.isEmpty = true) :
    rawPolarity text = 0 := by
  unfold rawPolarity
  dsimp only
  rw [positiveCount_empty h, negativeCount_empty h]
  norm_num

theorem sentWords_empty {text : String} (h : text.data.isEmpty = true) :
    (sentWords text).length = 0 := by
  rcases text with ⟨cs⟩
  cases cs with
  | nil => rfl
  | cons c rest => simp at h

/-- C7: in the keyword fallback, `analyze` returns
`polarity = round((pos − neg)/(pos + neg), 3)` (0 when no sentiment words),
`subjectivity = round(min((pos+neg)/wordCount · 5, 1), 3)` (0 when no words),
and the label thresholds are `positive` iff polarity > 0.1, `negative` iff
polarity < −0.1, else `neutral`; two positive-list words and one
negative-list word give polarity 0.333 and label `positive`. -/
theorem sentiment_fallback_spec :
    (∀ text : String,
      (analyze text).polarity =
        round3 (if positiveCount text + negativeCount text = 0 then 0
          else ((positiveCount text : ℚ) - (negativeCount text : ℚ)) /
            ((positiveCount text : ℚ) + (negativeCount text : ℚ))) ∧
      (analyze text).subjectivity =
        round3 (if (sentWords text).length = 0 then 0
          else min (((positiveCount text : ℚ) + (negativeCount text : ℚ)) /
            ((sentWords text).length : ℚ) * 5) 1) ∧
      ((analyze text).label = "positive" ↔ 1/10 < rawPolarity text) ∧
      ((analyze text).label = "negative" ↔ rawPolarity text < -(1/10)) ∧
      ((analyze text).label = "neutral" ↔
        ¬(1/10 < rawPolarity text) ∧ ¬(rawPolarity text < -(1/10)))) ∧
    (∀ text : String, positiveCount text = 2 → negativeCount text = 1 →
      (analyze text).polarity = 333/1000 ∧ (analyze text).label = "positive") := by
  have hpol : ∀ text : String, rawPolarity text =
      (if positiveCount text + negativeCount text = 0 then 0
        else ((positiveCount text : ℚ) - (negativeCount text : ℚ)) /
          ((positiveCount text : ℚ) + (negativeCount text : ℚ))) := by
    intro text
    unfold rawPolarity
    dsimp only
    split_ifs with h
    · rfl
    · push_cast
      rfl
  have hsub : ∀ text : String, rawSubjectivity text =
      (if (sentWords text).length = 0 then 0
        else min (((positiveCount text : ℚ) + (negativeCount text : ℚ)) /
          ((sentWords text).length : ℚ) * 5) 1) := by
    intro text
    unfold rawSubjectivity
    dsimp only
    split_ifs with h
    · rfl
    · push_cast
      rfl
  have hlabel : ∀ p : ℚ,
      (sentimentLabel p = "positive" ↔ 1/10 < p) ∧
      (sentimentLabel p = "negative" ↔ p < -(1/10)) ∧
      (sentimentLabel p = "neutral" ↔ ¬(1/10 < p) ∧ ¬(p < -(1/10))) := by
    intro p
    unfold sentimentLabel
    split_ifs with h1 h2
    · exact ⟨⟨fun _ => h1, fun _ => rfl⟩,
        ⟨fun h => absurd h (by decide), fun h => ((by linarith : False).elim)⟩,
        ⟨fun h => absurd h (by decide), fun h => absurd h1 h.1⟩⟩
    · exact ⟨⟨fun h => absurd h (by decide), fun h => absurd h h1⟩,
        ⟨fun _ => h2, fun _ => rfl⟩,
        ⟨fun h => absurd h (by decide), fun h => absurd h2 h.2⟩⟩
    · exact ⟨⟨fun h => absurd h (by decide), fun h => absurd h h1⟩,
        ⟨fun h => absurd h (by decide), fun h => absurd h h2⟩,
        ⟨fun _ => ⟨h1, h2⟩, fun _ => rfl⟩⟩
  have hmain : ∀ text : String,
      (analyze text).polarity = round3 (rawPolarity text) ∧
      (analyze text).subjectivity = round3 (rawSubjectivity text) ∧
      (analyze text).label = sentimentLabel (rawPolarity text) := by
    intro text
    unfold analyze
    split_ifs with h
    · have h0 := rawPolarity_empty h
      have h1 : rawSubjectivity text = 0 := by
        unfold rawSubjectivity
        dsimp only
        rw [if_pos (sentWords_empty h)]
      rw [h0, h1, round3_zero]
      refine ⟨rfl, rfl, ?_⟩
      unfold sentimentLabel
      norm_num
    · exact ⟨rfl, rfl, rfl⟩
  constructor
  · intro text
    obtain ⟨h1, h2, h3⟩ := hmain text
    refine ⟨by rw [h1, hpol], by rw [h2, hsub], ?_, ?_, ?_⟩ <;>
      rw [h3] <;> [exact (hlabel _).1; exact (hlabel _).2.1; exact (hlabel _).2.2]
  · intro text hp hn
    have hne : text.data.isEmpty = false := by
      by_contra hc
      have : text.data.isEmpty = true := by
        cases hb : text.data.isEmpty
        · exact absurd hb hc
        · rfl
      rw [positiveCount_empty this] at hp
      exact absurd hp (by norm_num)
    have hraw : rawPolarity text = 1/3 := by
      unfold rawPolarity
      dsimp only
      rw [hp, hn]
      norm_num
    obtain ⟨h1, _, h3⟩ := hmain text
    refine ⟨?_, ?_⟩
    · rw [h1, hraw, round3_third]
    · rw [h3, hraw]
      unfold sentimentLabel
      norm_num

theorem sentiment_fallback_spec_witness :
    positiveCount "growth growth recall" = 2 ∧
    negativeCount "growth growth recall" = 1 ∧
    ((analyze "growth growth recall").polarity = 333/1000 ∧
      (analyze "growth growth recall").label = "positive") :=
  ⟨by decide, by decide,
    sentiment_fallback_spec.2 "growth growth recall" (by decide) (by decide)⟩

/-! ### Monitor batch processing (src/monitors/base_monitor.py and the
`analyze` loops of the concrete monitors)

None of the monitors' `analyze` methods wraps its per-item work in a
`try`/`except`; the only handler is the monitor-level `except` in
`BaseMonitor.run`.  The per-item analysis is abstracted as a function
returning `Option`: `none` models an exception raised while analyzing that
item.  The trailing sort of the result list is irrelevant to fault
propagation and is not modelled. -/

/-- The `for item in items:` loop of a monitor's `analyze`: results are
accumulated in order, and an exception raised on any item propagates out of
the whole loop (there is no per-item handler). -/
def analyzeBatch {α β : Type} (f : α → Option β) : List α → Option (List β)
  | [] => some []
  | item :: rest =>
    match f item with
    | none => none
    | some r =>
      match analyzeBatch f rest with
      | none => none
      | some rs => some (r :: rs)

/-- `BaseMonitor.run` around the analysis phase: `self.results = []` is set
before the `try`, so when `analyze` raises, the monitor-level `except` logs
and `run` returns the still-empty `self.results`. -/
def runMonitor {α β : Type} (f : α → Option β) (items : List α) : List β :=
  match analyzeBatch f items with
  | some rs => rs
  | none => []

/-- C3 counterexample: with two parsed items where analysis of the second
faults, `run` returns the empty list, not the result of the non-faulting
first item. -/
theorem run_batch_not_fault_tolerant :
    runMonitor (fun n : ℕ => if n = 0 then none else some n) [1, 0] = [] ∧
    List.filterMap (fun n : ℕ => if n = 0 then none else some n) [1, 0] = [1] ∧
    runMonitor (fun n : ℕ => if n = 0 then none else some n) [1, 0] ≠
      List.filterMap (fun n : ℕ => if n = 0 then none else some n) [1, 0] := by
  refine ⟨rfl, rfl, ?_⟩
  intro h
  simpa [runMonitor, analyzeBatch] using h

/-- C3 amended: a fault analyzing any item aborts the whole batch — the
monitor-level handler catches it and `run` returns no results at all; only a
batch whose every item analyzes cleanly returns its per-item results. -/
theorem run_batch_fault_aborts {α β : Type} (f : α → Option β) (items : List α) :
    ((∃ item ∈ items, f item = none) → runMonitor f items = []) ∧
    ((∀ item ∈ items, (f item).isSome = true) →
      runMonitor f items = items.filterMap f) := by
  constructor
  · rintro ⟨item, hmem, hnone⟩
    suffices h : analyzeBatch f items = none by simp [runMonitor, h]
    induction items with
    | nil => exact absurd hmem (List.not_mem_nil _)
    | cons x rest ih =>
      rcases List.mem_cons.mp hmem with rfl | hmem2
      · simp [analyzeBatch, hnone]
      · unfold analyzeBatch
        rcases hfx : f x with _ | r
        · rfl
        · rw [ih hmem2]
  · intro hall
    suffices h : analyzeBatch f items = some (items.filterMap f) by
      simp [runMonitor, h]
    induction items with
    | nil => rfl
    | cons x rest ih =>
      rcases hfx : f x with _ | r
      · have hx := hall x (List.mem_cons_self x rest)
        rw [hfx] at hx
        simp at hx
      · have := ih (fun i hi => hall i (List.mem_cons_of_mem x hi))
        simp [analyzeBatch, hfx, this, List.filterMap_cons]

theorem run_batch_fault_aborts_witness :
    ((∃ item ∈ ([1, 0] : List ℕ), (fun n : ℕ => if n = 0 then none else some n) item
        = none) ∧
      runMonitor (fun n : ℕ => if n = 0 then none else some n) [1, 0] = []) ∧
    ((∀ item ∈ ([1, 2] : List ℕ), ((fun n : ℕ => if n = 0 then none else some n)
        item).isSome = true) ∧
      runMonitor (fun n : ℕ => if n = 0 then none else some n) [1, 2] =
        List.filterMap (fun n : ℕ => if n = 0 then none else some n) [1, 2]) :=
  ⟨⟨⟨0, by decide, by decide⟩,
      (run_batch_fault_aborts (fun n : ℕ => if n = 0 then none else some n) [1, 0]).1
        ⟨0, by decide, by decide⟩⟩,
    ⟨by decide,
      (run_batch_fault_aborts (fun n : ℕ => if n = 0 then none else some n) [1, 2]).2
        (by decide)⟩⟩

/-! ### `TriggerDatabase` (src/database/trigger_db.py)

The `triggers` table is modelled as a list of rows plus the AUTOINCREMENT
counter.  Timestamps are modelled as integers.  The MD5 hex digest used for
the fingerprint is modelled as an arbitrary function parameter `hashFn`
(any function of the concatenated string; determinism is inherent). -/

/-- The `TriggerEvent` dataclass (src/database/models.py). -/
structure TriggerEvent where
  id : Option ℕ := none
  source_type : String := ""
  source_name : String := ""
  title : String := ""
  content : String := ""
  url : String := ""
  company_name : Option String := none
  trigger_keywords : String := ""
  sentiment_score : ℚ := 0
  trigger_score : ℚ := 0
  detected_at : Option ℤ := none
  published_at : Option ℤ := none
  is_processed : Bool := false
  is_archived : Bool := false
  notes : String := ""
  deriving DecidableEq

/-- One row of the `triggers` table. -/
structure TriggerRow where
  id : ℕ
  source_type : String
  source_name : String
  title : String
  content : String
  url : String
  company_name : Option String
  trigger_keywords : String
  sentiment_score : ℚ
  trigger_score : ℚ
  detected_at : ℤ
  published_at : Option ℤ
  is_processed : Bool
  is_archived : Bool
  notes : String
  content_hash : String
  deriving DecidableEq

/-- The database state: the `triggers` table and its AUTOINCREMENT counter. -/
structure TriggerDatabase where
  rows : List TriggerRow
  nextId : ℕ
  deriving DecidableEq

/-- `TriggerDatabase._hash_content` composed with the f-string
`f"{title}{content}{url}"` of `insert_trigger`. -/
def contentFingerprint (hashFn : String → String) (t : TriggerEvent) : String :=
  hashFn (t.title ++ t.content ++ t.url)

/-- `TriggerDatabase.insert_trigger`: the INSERT succeeds and returns the
generated row id unless the UNIQUE constraint on `content_hash` fires
(`sqlite3.IntegrityError`), in which case `None` is returned and the table is
unchanged.  `now` models `datetime.now()` used when `detected_at` is absent. -/
def insert_trigger (hashFn : String → String) (db : TriggerDatabase)
    (t : TriggerEvent) (now : ℤ) : Option ℕ × TriggerDatabase :=
  let content_hash := contentFingerprint hashFn t
  if (db.rows.map TriggerRow.content_hash).contains content_hash then
    (none, db)
  else
    (some db.nextId,
      ⟨db.rows ++ [⟨db.nextId, t.source_type, t.source_name, t.title, t.content,
        t.url, t.company_name, t.trigger_keywords, t.sentiment_score,
        t.trigger_score, t.detected_at.getD now, t.published_at, t.is_processed,
        t.is_archived, t.notes, content_hash⟩],
       db.nextId + 1⟩)

/-- C2: for two events with identical title, content and url (all other fields
arbitrary), starting from any store not already holding their fingerprint, the
first insert returns a generated identifier, the second returns none (their
fingerprints coincide because the fingerprint is a function of exactly those
three fields), the second insert leaves the store unchanged, and the row count
grows by exactly one over the two calls. -/
theorem insert_trigger_dedup (hashFn : String → String) (db : TriggerDatabase)
    (t₁ t₂ : TriggerEvent) (now₁ now₂ : ℤ)
    (ht : t₁.title = t₂.title) (hc : t₁.content = t₂.content)
    (hu : t₁.url = t₂.url)
    (hfresh : ¬ (db.rows.map TriggerRow.content_hash).contains
      (contentFingerprint hashFn t₁) = true) :
    (insert_trigger hashFn db t₁ now₁).1 = some db.nextId ∧
    (insert_trigger hashFn (insert_trigger hashFn db t₁ now₁).2 t₂ now₂).1 = none ∧
    contentFingerprint hashFn t₂ = contentFingerprint hashFn t₁ ∧
    (insert_trigger hashFn (insert_trigger hashFn db t₁ now₁).2 t₂ now₂).2 =
      (insert_trigger hashFn db t₁ now₁).2 ∧
    ((insert_trigger hashFn (insert_trigger hashFn db t₁ now₁).2 t₂ now₂).2).rows.length
      = db.rows.length + 1 := by
  have hfp : contentFingerprint hashFn t₂ = contentFingerprint hashFn t₁ := by
    unfold contentFingerprint
    rw [ht, hc, hu]
  have hstep_pos : ∀ (dbx : TriggerDatabase) (t : TriggerEvent) (now : ℤ),
      (dbx.rows.map TriggerRow.content_hash).contains
        (contentFingerprint hashFn t) = true →
      insert_trigger hashFn dbx t now = (none, dbx) := by
    intro dbx t now hm
    unfold insert_trigger
    dsimp only
    rw [if_pos hm]
  have h1 : insert_trigger hashFn db t₁ now₁ =
      (some db.nextId,
        ⟨db.rows ++ [⟨db.nextId, t₁.source_type, t₁.source_name, t₁.title,
          t₁.content, t₁.url, t₁.company_name, t₁.trigger_keywords,
          t₁.sentiment_score, t₁.trigger_score, t₁.detected_at.getD now₁,
          t₁.published_at, t₁.is_processed, t₁.is_archived, t₁.notes,
          contentFingerprint hashFn t₁⟩],
         db.nextId + 1⟩) := by
    unfold insert_trigger
    dsimp only
    rw [if_neg hfresh]
  have hmem : ((insert_trigger hashFn db t₁ now₁).2.rows.map
      TriggerRow.content_hash).contains (contentFingerprint hashFn t₂) = true := by
    rw [h1, hfp]
    simp [List.contains_eq_any_beq]
  have h2 : insert_trigger hashFn (insert_trigger hashFn db t₁ now₁).2 t₂ now₂ =
      (none, (insert_trigger hashFn db t₁ now₁).2) :=
    hstep_pos _ t₂ now₂ hmem
  refine ⟨by rw [h1], by rw [h2], hfp, by rw [h2], ?_⟩
  rw [h2]
  rw [h1]
  simp

/-- Concrete events used to instantiate the deduplication theorem. -/
def wEvent1 : TriggerEvent := { title := "t", content := "c", url := "u" }

def wEvent2 : TriggerEvent := { title := "t", content := "c", url := "u", notes := "n" }

theorem insert_trigger_dedup_witness :
    ((insert_trigger id ⟨[], 1⟩ wEvent1 0).1 = some 1 ∧
    (insert_trigger id (insert_trigger id ⟨[], 1⟩ wEvent1 0).2 wEvent2 5).1 = none ∧
    contentFingerprint id wEvent2 = contentFingerprint id wEvent1 ∧
    (insert_trigger id (insert_trigger id ⟨[], 1⟩ wEvent1 0).2 wEvent2 5).2 =
      (insert_trigger id ⟨[], 1⟩ wEvent1 0).2 ∧
    ((insert_trigger id (insert_trigger id ⟨[], 1⟩ wEvent1 0).2 wEvent2 5).2).rows.length
      = (⟨[], 1⟩ : TriggerDatabase).rows.length + 1) :=
  insert_trigger_dedup id ⟨[], 1⟩ wEvent1 wEvent2 0 5 rfl rfl rfl (by decide)

/-! ### `TriggerDatabase.get_triggers` -/

/-- Python truthiness of an optional string filter argument. -/
def truthyStr : Option String → Bool
  | none => false
  | some s => !s.isEmpty

/-- Python truthiness of the optional `min_score` float: both `None` and `0.0`
are falsy, so a zero threshold adds no `trigger_score >=` clause. -/
def truthyQ : Option ℚ → Bool
  | none => false
  | some q => decide (q ≠ 0)

/-- `pat` occurs as a contiguous substring. -/
def likeContains (pat : List Char) : List Char → Bool
  | [] => pat.isEmpty
  | c :: rest => pat.isPrefixOf (c :: rest) || likeContains pat rest

/-- SQL `company_name LIKE '%pat%'`: substring match, never satisfied by a
NULL column. -/
def likeMatch (pat : String) : Option String → Bool
  | none => false
  | some s => likeContains pat.data s.data

/-- The conjunction of the dynamically assembled WHERE clauses of
`get_triggers`. -/
def rowMatches (source_type company_name : Option String) (min_score : Option ℚ)
    (include_archived : Bool) (r : TriggerRow) : Bool :=
  (include_archived || !r.is_archived) &&
  (!(truthyStr source_type) || r.source_type == source_type.getD "") &&
  (!(truthyStr company_name) || likeMatch (company_name.getD "") r.company_name) &&
  (!(truthyQ min_score) || decide (min_score.getD 0 ≤ r.trigger_score))

/-- `ORDER BY trigger_score DESC, detected_at DESC`. -/
def triggerOrder (a b : TriggerRow) : Prop :=
  b.trigger_score < a.trigger_score ∨
    (a.trigger_score = b.trigger_score ∧ b.detected_at ≤ a.detected_at)

instance : DecidableRel triggerOrder := fun a b => by
  unfold triggerOrder
  infer_instance

instance : IsTotal TriggerRow triggerOrder := by
  constructor
  intro a b
  rcases lt_trichotomy a.trigger_score b.trigger_score with h | h | h
  · exact Or.inr (Or.inl h)
  · rcases le_total b.detected_at a.detected_at with h2 | h2
    · exact Or.inl (Or.inr ⟨h, h2⟩)
    · exact Or.inr (Or.inr ⟨h.symm, h2⟩)
  · exact Or.inl (Or.inl h)

instance : IsTrans TriggerRow triggerOrder := by
  constructor
  intro a b c hab hbc
  unfold triggerOrder at *
  rcases hab with h1 | ⟨h1, h1'⟩ <;> rcases hbc with h2 | ⟨h2, h2'⟩
  · exact Or.inl (by linarith)
  · exact Or.inl (by rw [h2] at h1; exact h1)
  · exact Or.inl (by rw [h1]; exact h2)
  · exact Or.inr ⟨h1.trans h2, h2'.trans h1'⟩

/-- `TriggerDatabase.get_triggers`: filter by the assembled WHERE clauses,
order by score then detection time (both descending), and bound by `LIMIT`. -/
def get_triggers (db : TriggerDatabase) (source_type company_name : Option String)
    (min_score : Option ℚ) (limit : ℕ) (include_archived : Bool) : List TriggerRow :=
  (List.insertionSort triggerOrder
    (db.rows.filter (rowMatches source_type company_name min_score include_archived))).take
    limit

/-- C8: with `min_score = 7` and `limit = 5`, at most 5 rows come back, all
non-archived with score at least 7, ordered by score descending then detection
time descending. -/
theorem get_triggers_minscore_limit (db : TriggerDatabase) :
    (get_triggers db none none (some 7) 5 false).length ≤ 5 ∧
    (∀ r ∈ get_triggers db none none (some 7) 5 false,
      (7:ℚ) ≤ r.trigger_score ∧ r.is_archived = false ∧ r ∈ db.rows) ∧
    List.Sorted triggerOrder (get_triggers db none none (some 7) 5 false) := by
  refine ⟨List.length_take_le _ _, ?_, ?_⟩
  · intro r hr
    have hr1 : r ∈ List.insertionSort triggerOrder
        (db.rows.filter (rowMatches none none (some 7) false)) :=
      List.mem_of_mem_take hr
    have hr2 : r ∈ db.rows.filter (rowMatches none none (some 7) false) :=
      (List.perm_insertionSort triggerOrder _).mem_iff.mp hr1
    have hsplit := List.mem_filter.mp hr2
    have hb := hsplit.2
    simp only [rowMatches, truthyStr, truthyQ, Option.getD, Bool.false_or,
      Bool.not_false, Bool.true_or, Bool.and_eq_true, Bool.not_eq_true',
      decide_eq_true_eq] at hb
    refine ⟨?_, ?_, hsplit.1⟩
    · have h7 : decide ((7:ℚ) ≠ 0) = true := by decide
      rcases hb with ⟨⟨⟨harch, -⟩, -⟩, hs⟩
      rw [h7] at hs
      simpa using hs
    · rcases hb with ⟨⟨⟨harch, -⟩, -⟩, -⟩
      exact harch
  · exact List.Pairwise.sublist (List.take_sublist _ _)
      (List.sorted_insertionSort triggerOrder _)

/-- Concrete row and database used to instantiate the query theorems. -/
def wRow : TriggerRow :=
  ⟨1, "news", "src", "title", "content", "url", none, "", 0, 8, 100, none,
    false, false, "", "hash1"⟩

def wDb : TriggerDatabase := ⟨[wRow], 2⟩

theorem get_triggers_minscore_limit_witness :
    (wRow ∈ get_triggers wDb none none (some 7) 5 false) ∧
    ((7:ℚ) ≤ wRow.trigger_score ∧ wRow.is_archived = false ∧ wRow ∈ wDb.rows) :=
  ⟨by decide, (get_triggers_minscore_limit wDb).2.1 wRow (by decide)⟩

/-- C10: because `0.0` is falsy in the `if min_score:` guard, a zero minimum
score adds no score clause at all — the query behaves exactly as if
`min_score` had been omitted, for every database state and combination of the
remaining filters. -/
theorem get_triggers_zero_min_score (db : TriggerDatabase)
    (source_type company_name : Option String) (limit : ℕ)
    (include_archived : Bool) :
    get_triggers db source_type company_name (some 0) limit include_archived =
      get_triggers db source_type company_name none limit include_archived := by
  unfold get_triggers
  have h : rowMatches source_type company_name (some 0) include_archived =
      rowMatches source_type company_name none include_archived := by
    funext r
    simp [rowMatches, truthyQ]
  rw [h]

/-! ### `KeywordDetector` (src/analyzers/keyword_detector.py)

Each keyword `kw` is matched with the compiled pattern
`\b re.escape(kw) \b` under `re.IGNORECASE`; `re.escape` makes the keyword a
literal, so a match at position `i` is a case-insensitive character-wise
equality plus the `\b` word-boundary test on each side.  `\b` holds at a
position iff exactly one of the adjacent characters (out-of-range counts as
non-word) is a word character. -/

/-- Whether the character at index `i` is a word character (`\w`);
out-of-range indices count as non-word. -/
def wordAt (text : List Char) (i : ℕ) : Bool :=
  match text.get? i with
  | some c => isWordChar c
  | none => false

/-- Whether the character just before index `i` is a word character. -/
def prevWord (text : List Char) (i : ℕ) : Bool :=
  if i = 0 then false else wordAt text (i - 1)

/-- `\b` at position `i`. -/
def boundaryAt (text : List Char) (i : ℕ) : Bool :=
  prevWord text i != wordAt text i

/-- One attempted match of `\b kw \b` (case-insensitive) at position `i`. -/
def keywordMatchesAt (text kw : List Char) (i : ℕ) : Bool :=
  decide (i + kw.length ≤ text.length) &&
  decide (lowerList ((text.drop i).take kw.length) = lowerList kw) &&
  boundaryAt text i && boundaryAt text (i + kw.length)

/-- `finditer` for a single keyword pattern: scan left to right, emit
non-overlapping match positions, advancing by the match length (by one for an
empty match, as the regex engine does). -/
def scanKeyword (text kw : List Char) : ℕ → ℕ → List ℕ
  | 0, _ => []
  | fuel + 1, pos =>
    if pos > text.length then []
    else if keywordMatchesAt text kw pos then
      pos :: scanKeyword text kw fuel (pos + max kw.length 1)
    else scanKeyword text kw fuel (pos + 1)

/-- The `KeywordMatch` dataclass. -/
structure KeywordMatch where
  keyword : String
  category : String
  position : ℕ
  context : String
  deriving DecidableEq

/-- The body of the `detect` loop for one regex match: position, category and
a ±50-character context window around the occurrence, stripped. -/
def mkKeywordMatch (text : List Char) (category kw : String) (pos : ℕ) :
    KeywordMatch :=
  let stop := min text.length (pos + kw.data.length + 50)
  ⟨kw, category, pos, String.mk (stripList ((text.take stop).drop (pos - 50)))⟩

/-- `KeywordDetector.detect`: for every category (in insertion order) and
every keyword of the category, collect all pattern matches in the text. -/
def detect (keywords : List (String × List String)) (text : String) :
    List KeywordMatch :=
  if text.data.isEmpty then []
  else
    keywords.bind (fun ckws =>
      ckws.2.bind (fun kw =>
        (scanKeyword text.data kw.data (text.data.length + 1) 0).map
          (mkKeywordMatch text.data ckws.1 kw)))

theorem scanKeyword_sound {text kw : List Char} :
    ∀ (fuel pos p : ℕ), p ∈ scanKeyword text kw fuel pos →
      keywordMatchesAt text kw p = true := by
  intro fuel
  induction fuel with
  | zero => intro pos p hp; exact absurd hp (List.not_mem_nil p)
  | succ n ih =>
    intro pos p hp
    unfold scanKeyword at hp
    split_ifs at hp with h1 h2
    · exact absurd hp (List.not_mem_nil p)
    · rcases List.mem_cons.mp hp with rfl | hp2
      · exact h2
      · exact ih _ p hp2
    · exact ih _ p hp

/-- C6: every match reported by `detect` points at a genuine case-insensitive
occurrence of its keyword at the reported position (within bounds), and that
occurrence is not a substring of a larger word — at each end the adjacent
character and the occurrence's edge character are not both word characters. -/
theorem detect_matches_sound (keywords : List (String × List String))
    (text : String) (m : KeywordMatch) (hm : m ∈ detect keywords text) :
    m.position + m.keyword.data.length ≤ text.data.length ∧
    lowerList ((text.data.drop m.position).take m.keyword.data.length) =
      lowerList m.keyword.data ∧
    ¬(prevWord text.data m.position = true ∧ wordAt text.data m.position = true) ∧
    ¬(prevWord text.data (m.position + m.keyword.data.length) = true ∧
      wordAt text.data (m.position + m.keyword.data.length) = true) := by
  unfold detect at hm
  split_ifs at hm
  · exact absurd hm (List.not_mem_nil m)
  · rcases List.mem_bind.mp hm with ⟨ckws, hc, hm2⟩
    rcases List.mem_bind.mp hm2 with ⟨kw, hk, hm3⟩
    rcases List.mem_map.mp hm3 with ⟨pos, hpos, rfl⟩
    have hmatch := scanKeyword_sound _ _ _ hpos
    unfold keywordMatchesAt at hmatch
    simp only [Bool.and_eq_true, decide_eq_true_eq] at hmatch
    obtain ⟨⟨⟨hlen, heq⟩, hb1⟩, hb2⟩ := hmatch
    have hb1' : ¬(prevWord text.data pos = true ∧ wordAt text.data pos = true) := by
      unfold boundaryAt at hb1
      rintro ⟨hp, hw⟩
      rw [hp, hw] at hb1
      exact absurd hb1 (by decide)
    have hb2' : ¬(prevWord text.data (pos + kw.data.length) = true ∧
        wordAt text.data (pos + kw.data.length) = true) := by
      unfold boundaryAt at hb2
      rintro ⟨hp, hw⟩
      rw [hp, hw] at hb2
      exact absurd hb2 (by decide)
    exact ⟨hlen, heq, hb1', hb2'⟩

theorem detect_matches_sound_witness :
    (mkKeywordMatch "FDA approval granted to XYZ".data "product_approval"
        "drug approval" 0 ∉
      detect [("product_approval", ["drug approval"])] "FDA approval granted to XYZ") ∧
    (mkKeywordMatch "XYZ Pharma seeks manufacturing partner for 5 lakh tablets".data
        "manufacturing_partner" "seeks manufacturing partner" 11 ∈
      detect [("manufacturing_partner", ["seeks manufacturing partner"])]
        "XYZ Pharma seeks manufacturing partner for 5 lakh tablets") ∧
    (11 + "seeks manufacturing partner".data.length ≤
      "XYZ Pharma seeks manufacturing partner for 5 lakh tablets".data.length ∧
    lowerList (("XYZ Pharma seeks manufacturing partner for 5 lakh tablets".data.drop
        11).take "seeks manufacturing partner".data.length) =
      lowerList "seeks manufacturing partner".data ∧
    ¬(prevWord "XYZ Pharma seeks manufacturing partner for 5 lakh tablets".data 11
        = true ∧
      wordAt "XYZ Pharma seeks manufacturing partner for 5 lakh tablets".data 11
        = true) ∧
    ¬(prevWord "XYZ Pharma seeks manufacturing partner for 5 lakh tablets".data
        (11 + "seeks manufacturing partner".data.length) = true ∧
      wordAt "XYZ Pharma seeks manufacturing partner for 5 lakh tablets".data
        (11 + "seeks manufacturing partner".data.length) = true)) :=
  ⟨by decide, by decide,
    by
      have h := detect_matches_sound
        [("manufacturing_partner", ["seeks manufacturing partner"])]
        "XYZ Pharma seeks manufacturing partner for 5 lakh tablets"
        (mkKeywordMatch
          "XYZ Pharma seeks manufacturing partner for 5 lakh tablets".data
          "manufacturing_partner" "seeks manufacturing partner" 11)
        (by decide)
      exact h⟩

/-! ### `clean_text` (src/utils/helpers.py)

`clean_text` applies, in order: `re.sub(r'<[^>]+>', '', ...)`,
`re.sub(r'\s+', ' ', ...)`, `re.sub(r'[^\w\s.,!?\'"-]', '', ...)`, and
`.strip()`. -/

/-- After a `<`: if the regex `<[^>]+>` matches here, return the text after
the first following `>` (which must not be the very next character);
otherwise `none`. -/
def findTagEnd (cs : List Char) : Option (List Char) :=
  if (cs.takeWhile (fun c => c != '>')).isEmpty then none
  else
    match cs.dropWhile (fun c => c != '>') with
    | '>' :: rest => some rest
    | _ => none

/-- `re.sub(r'<[^>]+>', '', ...)`: left-to-right removal of tag-like spans. -/
def stripTagsGo : ℕ → List Char → List Char
  | 0, cs => cs
  | _ + 1, [] => []
  | fuel + 1, c :: rest =>
    if c = '<' then
      match findTagEnd rest with
      | some rest2 => stripTagsGo fuel rest2
      | none => c :: stripTagsGo fuel rest
    else c :: stripTagsGo fuel rest

def stripTags (cs : List Char) : List Char := stripTagsGo cs.length cs

/-- `re.sub(r'\s+', ' ', ...)`: collapse each whitespace run to one space. -/
def collapseWsGo : ℕ → List Char → List Char
  | 0, cs => cs
  | _ + 1, [] => []
  | fuel + 1, c :: rest =>
    if isWsChar c then ' ' :: collapseWsGo fuel (rest.dropWhile isWsChar)
    else c :: collapseWsGo fuel rest

def collapseWs (cs : List Char) : List Char := collapseWsGo cs.length cs

/-- The safelist of `re.sub(r'[^\w\s.,!?\'"-]', '', ...)`: characters kept. -/
def isAllowedChar (c : Char) : Bool :=
  isWordChar c || isWsChar c ||
    ['.', ',', '!', '?', '\'', '"', '-'].contains c

/-- `clean_text`: strip tags, collapse whitespace, drop disallowed
characters, trim the ends; empty input short-circuits to the empty string. -/
def clean_text (text : String) : String :=
  if text.data.isEmpty then ""
  else String.mk (stripList ((collapseWs (stripTags text.data)).filter isAllowedChar))

/-- C9 counterexample: dropping a disallowed character can merge two spaces,
so a second normalization pass collapses further — `clean_text` is not
idempotent. -/
theorem clean_text_not_idempotent :
    clean_text "a @ b" = "a  b" ∧
    clean_text (clean_text "a @ b") = "a b" ∧
    clean_text (clean_text "a @ b") ≠ clean_text "a @ b" := by
  refine ⟨by decide, by decide, by decide⟩

/-! Auxiliary development for the amended idempotence statement. -/

theorem collapseWsGo_nil (fuel : ℕ) : collapseWsGo fuel [] = [] := by
  cases fuel <;> rfl

theorem stripTagsGo_of_no_lt :
    ∀ (fuel : ℕ) (cs : List Char), (∀ c ∈ cs, c ≠ '<') → stripTagsGo fuel cs = cs := by
  intro fuel
  induction fuel with
  | zero => intro cs _; rfl
  | succ n ih =>
    intro cs h
    cases cs with
    | nil => rfl
    | cons c rest =>
      have hc : c ≠ '<' := h c (List.mem_cons_self _ _)
      unfold stripTagsGo
      rw [if_neg hc, ih rest (fun x hx => h x (List.mem_cons_of_mem _ hx))]

theorem stripTags_of_no_lt {cs : List Char} (h : ∀ c ∈ cs, c ≠ '<') :
    stripTags cs = cs :=
  stripTagsGo_of_no_lt _ _ h

theorem mem_collapseWsGo :
    ∀ (fuel : ℕ) (cs : List Char) (c : Char), c ∈ collapseWsGo fuel cs →
      c = ' ' ∨ c ∈ cs := by
  intro fuel
  induction fuel with
  | zero => intro cs c hc; exact Or.inr hc
  | succ n ih =>
    intro cs c hc
    cases cs with
    | nil => exact absurd hc (List.not_mem_nil c)
    | cons d rest =>
      unfold collapseWsGo at hc
      split_ifs at hc with hd
      · rcases List.mem_cons.mp hc with rfl | hc2
        · exact Or.inl rfl
        · rcases ih _ c hc2 with h | h
          · exact Or.inl h
          · exact Or.inr (List.mem_cons_of_mem _ (List.dropWhile_subset _ h))
      · rcases List.mem_cons.mp hc with rfl | hc2
        · exact Or.inr (List.mem_cons_self _ _)
        · rcases ih _ c hc2 with h | h
          · exact Or.inl h
          · exact Or.inr (List.mem_cons_of_mem _ h)

/-- The no-adjacent-whitespace relation of a collapsed string. -/
def wsApart (a b : Char) : Prop := ¬(isWsChar a = true ∧ isWsChar b = true)

/-- The invariant established by whitespace collapsing: every whitespace
character is a plain space, and no two adjacent characters are both
whitespace. -/
def wsNormalized (l : List Char) : Prop :=
  (∀ c ∈ l, isWsChar c = true → c = ' ') ∧ l.Chain' wsApart

theorem wsNormalized_nil : wsNormalized [] :=
  ⟨fun c hc => absurd hc (List.not_mem_nil c), List.chain'_nil⟩

theorem wsNormalized_suffix {l l' : List Char} (h : wsNormalized l)
    (hs : l' <:+ l) : wsNormalized l' :=
  ⟨fun c hc => h.1 c (hs.subset hc), h.2.suffix hs⟩

theorem wsNormalized_reverse {l : List Char} (h : wsNormalized l) :
    wsNormalized l.reverse :=
  ⟨fun c hc => h.1 c (List.mem_reverse.mp hc),
    List.chain'_reverse.mpr (h.2.imp (fun a b hab => fun ⟨x, y⟩ => hab ⟨y, x⟩))⟩

theorem wsNormalized_stripList {l : List Char} (h : wsNormalized l) :
    wsNormalized (stripList l) :=
  wsNormalized_reverse (wsNormalized_suffix
    (wsNormalized_reverse (wsNormalized_suffix h (List.dropWhile_suffix _)))
    (List.dropWhile_suffix _))

theorem collapseWsGo_wsNormalized :
    ∀ (fuel : ℕ) (cs : List Char), cs.length ≤ fuel →
      wsNormalized (collapseWsGo fuel cs) := by
  intro fuel
  induction fuel with
  | zero =>
    intro cs hlen
    have : cs = [] := List.length_eq_zero.mp (Nat.le_zero.mp hlen)
    subst this
    exact wsNormalized_nil
  | succ n ih =>
    intro cs hlen
    cases cs with
    | nil => exact wsNormalized_nil
    | cons c rest =>
      have hrest : rest.length ≤ n := Nat.succ_le_succ_iff.mp hlen
      unfold collapseWsGo
      split_ifs with hc
      · have hlen2 : (rest.dropWhile isWsChar).length ≤ n :=
          le_trans (List.dropWhile_sublist _).length_le hrest
        obtain ⟨ih1, ih2⟩ := ih _ hlen2
        refine ⟨?_, ?_⟩
        · intro x hx hxws
          rcases List.mem_cons.mp hx with rfl | hx2
          · rfl
          · exact ih1 x hx2 hxws
        · refine List.chain'_cons'.mpr ⟨?_, ih2⟩
          intro b hb
          rcases hrw : rest.dropWhile isWsChar with _ | ⟨d, t⟩
          · rw [hrw, collapseWsGo_nil] at hb
            simp at hb
          · have hd : isWsChar d = false := by
              have := List.head?_dropWhile_not isWsChar rest
              rw [hrw] at this
              simpa using this
            have hn : 0 < n := by
              have := hlen2
              rw [hrw] at this
              simp at this
              omega
            obtain ⟨m, rfl⟩ := Nat.exists_eq_succ_of_ne_zero (Nat.pos_iff_ne_zero.mp hn)
            rw [hrw] at hb
            unfold collapseWsGo at hb
            rw [if_neg (by simp [hd])] at hb
            simp only [List.head?_cons, Option.mem_def, Option.some_inj] at hb
            subst hb
            exact fun ⟨_, h2⟩ => by simp [hd] at h2
      · obtain ⟨ih1, ih2⟩ := ih rest hrest
        refine ⟨?_, ?_⟩
        · intro x hx hxws
          rcases List.mem_cons.mp hx with rfl | hx2
          · exact absurd hxws (by simp [hc])
          · exact ih1 x hx2 hxws
        · refine List.chain'_cons'.mpr ⟨?_, ih2⟩
          exact fun b _ => fun ⟨h1, _⟩ => by simp [hc] at h1

theorem collapseWs_wsNormalized (cs : List Char) : wsNormalized (collapseWs cs) :=
  collapseWsGo_wsNormalized _ _ le_rfl

theorem collapseWsGo_fixed :
    ∀ (fuel : ℕ) (cs : List Char), wsNormalized cs →
      collapseWsGo fuel cs = cs := by
  intro fuel
  induction fuel with
  | zero => intro cs _; rfl
  | succ n ih =>
    intro cs hws
    cases cs with
    | nil => rfl
    | cons c rest =>
      obtain ⟨h1, h2⟩ := hws
      have htail : wsNormalized rest :=
        ⟨fun x hx => h1 x (List.mem_cons_of_mem _ hx), (List.chain'_cons'.mp h2).2⟩
      unfold collapseWsGo
      split_ifs with hc
      · have hsp : c = ' ' := h1 c (List.mem_cons_self _ _) hc
        have hdrop : rest.dropWhile isWsChar = rest := by
          cases rest with
          | nil => rfl
          | cons d t =>
            have hrel : wsApart c d := (List.chain'_cons.mp h2).1
            have hd : isWsChar d = false := by
              rcases hb : isWsChar d
              · rfl
              · exact absurd ⟨hc, hb⟩ hrel
            exact List.dropWhile_cons_of_neg (by simp [hd])
        rw [hdrop, ih rest htail, hsp]
      · rw [ih rest htail]

theorem collapseWs_fixed {cs : List Char} (h : wsNormalized cs) :
    collapseWs cs = cs :=
  collapseWsGo_fixed _ _ h

theorem headNotWs_dropWhile (l : List Char) :
    ∀ c ∈ (l.dropWhile isWsChar).head?, isWsChar c = false := by
  intro c hc
  have hh := List.head?_dropWhile_not isWsChar l
  rcases h : (l.dropWhile isWsChar).head? with _ | d
  · rw [h] at hc
    simp at hc
  · rw [h] at hh hc
    simp only [Option.mem_def, Option.some_inj] at hc
    subst hc
    simpa using hh

theorem dropWhile_of_headNot {l : List Char}
    (h : ∀ c ∈ l.head?, isWsChar c = false) : l.dropWhile isWsChar = l := by
  cases l with
  | nil => rfl
  | cons c t =>
    exact List.dropWhile_cons_of_neg (by simp [h c (by simp)])

theorem headNotWs_ofPre {l l' : List Char} (hp : l' <+: l)
    (h : ∀ c ∈ l.head?, isWsChar c = false) :
    ∀ c ∈ l'.head?, isWsChar c = false := by
  intro c hc
  cases l' with
  | nil => simp at hc
  | cons d t =>
    simp only [List.head?_cons, Option.mem_def, Option.some_inj] at hc
    obtain ⟨u, hu⟩ := hp
    rcases hc with rfl
    exact h _ (by rw [← hu]; simp)

theorem stripBack_isPre (l : List Char) :
    (l.reverse.dropWhile isWsChar).reverse <+: l := by
  have hs : l.reverse.dropWhile isWsChar <:+ l.reverse := List.dropWhile_suffix _
  have := List.reverse_prefix.mpr hs
  rwa [List.reverse_reverse] at this

theorem mem_stripList {c : Char} {l : List Char} (h : c ∈ stripList l) : c ∈ l := by
  unfold stripList at h
  rw [List.mem_reverse] at h
  have h2 := List.dropWhile_subset _ h
  rw [List.mem_reverse] at h2
  exact List.dropWhile_subset _ h2

theorem stripList_idem (l : List Char) : stripList (stripList l) = stripList l := by
  unfold stripList
  have h1 : (((l.dropWhile isWsChar).reverse.dropWhile isWsChar).reverse).dropWhile
      isWsChar = ((l.dropWhile isWsChar).reverse.dropWhile isWsChar).reverse :=
    dropWhile_of_headNot
      (headNotWs_ofPre (stripBack_isPre (l.dropWhile isWsChar))
        (headNotWs_dropWhile l))
  rw [h1, List.reverse_reverse,
    dropWhile_of_headNot (headNotWs_dropWhile (l.dropWhile isWsChar).reverse)]

/-- C9 amended: `clean_text` is not idempotent in general (removing a
disallowed character can merge two whitespace runs, see the counterexample);
it is idempotent on every input whose characters all lie in the safelist
`\w`, `\s`, `.,!?'"-`, and empty input yields the empty string without
failing. -/
theorem clean_text_idempotent_on_safelist :
    (∀ s : String, (∀ c ∈ s.data, isAllowedChar c = true) →
      clean_text (clean_text s) = clean_text s) ∧
    clean_text "" = "" := by
  refine ⟨?_, rfl⟩
  intro s hall
  by_cases hemp : s.data.isEmpty = true
  · have h1 : clean_text s = "" := by
      unfold clean_text
      rw [if_pos hemp]
    rw [h1]
    decide
  · have hlt : ∀ c ∈ s.data, c ≠ '<' := by
      intro c hc heq
      have hac := hall c hc
      rw [heq] at hac
      exact absurd hac (by decide)
    have hallc : ∀ c ∈ collapseWs s.data, isAllowedChar c = true := by
      intro c hc
      rcases mem_collapseWsGo _ _ c hc with rfl | h
      · decide
      · exact hall c h
    have ht : (clean_text s).data = stripList (collapseWs s.data) := by
      unfold clean_text
      rw [if_neg hemp, stripTags_of_no_lt hlt, List.filter_eq_self.mpr hallc]
    set t := clean_text s with htdef
    by_cases htemp : t.data.isEmpty = true
    · have hte : t = "" := by
        rcases t with ⟨d⟩
        cases d with
        | nil => rfl
        | cons c rest => simp at htemp
      rw [hte]
      decide
    · have htchars : ∀ c ∈ t.data, isAllowedChar c = true := by
        intro c hc
        rw [ht] at hc
        exact hallc c (mem_stripList hc)
      have htlt : ∀ c ∈ t.data, c ≠ '<' := by
        intro c hc heq
        have hac := htchars c hc
        rw [heq] at hac
        exact absurd hac (by decide)
      have htws : wsNormalized t.data := by
        rw [ht]
        exact wsNormalized_stripList (collapseWs_wsNormalized _)
      have hstrip2 : stripList t.data = t.data := by
        rw [ht]
        exact stripList_idem _
      show clean_text t = t
      unfold clean_text
      rw [if_neg htemp, stripTags_of_no_lt htlt,
        List.filter_eq_self.mpr (by rw [collapseWs_fixed htws]; exact htchars),
        collapseWs_fixed htws, hstrip2]

theorem clean_text_idempotent_on_safelist_witness :
    (∀ c ∈ "Hello   world, test.".data, isAllowedChar c = true) ∧
    clean_text (clean_text "Hello   world, test.") =
      clean_text "Hello   world, test." :=
  ⟨by decide,
    clean_text_idempotent_on_safelist.1 "Hello   world, test." (by decide)⟩

end TriggerDetection
